/-
Verification of the quick_fetcher download engine core.

This file shallowly embeds the pure/deterministic parts of the Rust
sources (src/downloader.rs, src/downloader/threads.rs,
src/downloader/decompress.rs, src/downloader/verify.rs, src/error.rs)
and proves or refutes the frozen specification claims about them.

Modelling conventions:
* u64 / usize arithmetic is modelled on Nat with explicit `% 2 ^ 64`
  at the operations where Rust release-mode wrapping can occur.
* A Rust panic (division by zero, index out of bounds, integer
  underflow in slice arithmetic) is modelled as `Option.none`.
* Fallible operations return `Except` of the error taxonomy from
  src/error.rs.
* External collaborators (the HTTP transport, the filesystem, progress
  bars, the concrete hash primitives and compression codecs) are out of
  scope per spec section 1; they are abstracted as parameters, while all
  control flow and arithmetic of the repository's own code is kept.
-/
import Mathlib

deriving instance DecidableEq for Except

/-- 2^64, the modulus of Rust u64 / 64-bit usize arithmetic. -/
def u64Mod : Nat := 2 ^ 64

/-- Archive errors, from src/error.rs (payload of FileError is external). -/
inductive ArchiveError
  | UnarchiveError
  | FileError
deriving DecidableEq

/-- The download error taxonomy, from src/error.rs.  Payloads of the
transport / io variants are external and dropped. -/
inductive DownloadError
  | URLParse
  | ContentLength
  | RequestError
  | ReqwestError
  | FileError
  | InvalidThreads
  | InvalidChecksum
  | SaveError
  | UnsupportedFileName
  | ArchiveError (e : ArchiveError)
deriving DecidableEq

/-- Archive / codec variants, from src/downloader/decompress.rs. -/
inductive ArchiveFormat
  | Tar
  | TarBz2
  | TarGz
  | TarXz
  | TarZst
  | Zip
  | Xz
  | Gz
  | Bz2
  | Zst
deriving DecidableEq

/-- One contiguous byte range of a resource, from
src/downloader/threads.rs (`struct Chunk`).  Bytes are Nat. -/
structure Chunk where
  buf : List Nat
  begin : Nat
  end_ : Nat
  length : Nat
deriving DecidableEq

/-- The chunk collection, from src/downloader/threads.rs
(`struct Chunks`). -/
structure Chunks where
  chunks : List Chunk
deriving DecidableEq

/-- `Chunks::new(threads, length)` from src/downloader/threads.rs.
`size = (length + t) / t` in u64 arithmetic; `threads == 0` makes the
division panic (`none`).  Additions and the multiplication `size * i`
wrap modulo 2^64 as in release-mode Rust. -/
def Chunks.new (threads : Nat) (length : Nat) : Option Chunks :=
  if threads = 0 then none
  else
    let size := ((length + threads) % u64Mod) / threads
    some ⟨(List.range threads).map (fun i =>
      let b := size * i % u64Mod
      { buf := [], begin := b, end_ := min ((b + size) % u64Mod) length,
        length := length })⟩

/-- The Range header value computed in `Chunk::download`
(src/downloader/threads.rs lines 116-123): `none` models absence of the
header. -/
def Chunk.rangeHeader (c : Chunk) : Option String :=
  if c.begin = 0 ∧ c.end_ = c.length then none
  else if c.end_ = c.length then some ("bytes=" ++ toString c.begin ++ "-")
  else some ("bytes=" ++ toString c.begin ++ "-" ++ toString c.end_)

/-- The Range header values of all chunks, in order. -/
def Chunks.headers (cs : Chunks) : List (Option String) :=
  cs.chunks.map Chunk.rangeHeader

/-- The checksum state from src/downloader/verify.rs.  The concrete
hash primitives (md5/sha1/sha2 crates) are external collaborators (spec
section 1), so the digest is abstracted: the incremental hasher state is
the list of bytes absorbed so far (`acc`), and `hashAlg` is the opaque
full-stream digest function producing the lowercase-hex string that
`format!("\x7b:x\x7d", finalize)` would; `contents` is the expected
digest string. -/
structure Checksum where
  hashAlg : List Nat → String
  acc : List Nat
  contents : String

/-- `Checksum::update` from src/downloader/verify.rs: absorb bytes. -/
def Checksum.update (c : Checksum) (data : List Nat) : Checksum :=
  { c with acc := c.acc ++ data }

/-- `Checksum::verify` from src/downloader/verify.rs: finalize and
compare byte-exactly with the expected digest. -/
def Checksum.verifyBool (c : Checksum) : Bool :=
  c.hashAlg c.acc == c.contents

/-- The payload slice `&chunk.buf[0 .. (end - begin)]` taken by
`Chunks::verify` and `Chunks::save_archive`
(src/downloader/threads.rs).  The u64 subtraction underflows when
`end < begin` and the index is out of bounds when
`end - begin > buf.len()`; both are panics, modelled as `none`. -/
def Chunk.payloadSlice (c : Chunk) : Option (List Nat) :=
  if c.begin ≤ c.end_ ∧ c.end_ - c.begin ≤ c.buf.length then
    some (c.buf.take (c.end_ - c.begin))
  else none

/-- `Chunks::verify` from src/downloader/threads.rs lines 86-96: feed
each chunk's payload slice into the hasher in order, then compare.
`none` models a panic while slicing. -/
def Chunks.verify (cs : Chunks) (ck : Checksum) :
    Option (Except DownloadError Unit) :=
  (cs.chunks.foldlM (fun (acc : Checksum) (c : Chunk) =>
      c.payloadSlice.map acc.update) ck).map
    (fun final =>
      if final.verifyBool then Except.ok () else
        Except.error DownloadError.InvalidChecksum)

/-- Collect the payload slices of a chunk list in order, stopping at
the first panic (`none`). -/
def payloadSlices : List Chunk → Option (List (List Nat))
  | [] => some []
  | c :: l =>
      match c.payloadSlice with
      | none => none
      | some p => (payloadSlices l).map (fun rest => p :: rest)

/-- The slice list `[&chunk.buf[0 .. end - begin]]` built by
`Chunks::save_archive` (src/downloader/threads.rs lines 74-84) before
handing off to the decompress pipeline.  `none` models a panic. -/
def Chunks.archiveSlices (cs : Chunks) : Option (List (List Nat)) :=
  payloadSlices cs.chunks

/-- Write `data` into `file` at byte offset `pos`, zero-filling any gap
past the current end: the effect of `Chunk::save`'s
`seek(Start(begin)); write_all(buf)` on the file contents. -/
def writeAt (file : List Nat) (pos : Nat) (data : List Nat) : List Nat :=
  let padded := file ++ List.replicate (pos - file.length) 0
  padded.take pos ++ data ++ padded.drop (pos + data.length)

/-- `Chunks::save` from src/downloader/threads.rs lines 65-72: each
chunk seeks to its own offset in a duplicated handle and writes its
buffer.  Filesystem failures are external; the resulting byte contents
are modelled. -/
def Chunks.saveBytes (cs : Chunks) (file : List Nat) : List Nat :=
  cs.chunks.foldl (fun f c => writeAt f c.begin c.buf) file

/-- The concatenation of the chunk payload slices in list order
(the byte stream `Chunks::verify` feeds to the hasher). -/
def Chunks.payloadBytes (cs : Chunks) : List Nat :=
  cs.chunks.foldl (fun a c => a ++ c.buf.take (c.end_ - c.begin)) []

/-- `Download::spawn` after its download step
(src/downloader.rs lines 293-323): verify when a checksum is
configured, then dispatch to `save_archive` (decompress pipeline,
abstracted as `decompressFn` since the codecs are external) or to
`save`.  `chunks` holds the already-transferred, offset-sorted chunks;
`file` is the on-disk contents of the output file as created by
`fill_output` (empty).  Returns the spawn result together with the
final file contents; `none` models a panic.

`saveStep` is the dispatch tail of `spawn`: `save_archive` when an
archive format is configured (the external decompressor receives the
slice list; for the plain-save path the written bytes are computed),
else `save`. -/
def Download.saveStep (chunks : Chunks) (archive : Option ArchiveFormat)
    (decompressFn : ArchiveFormat → List (List Nat) → Except ArchiveError Unit)
    (file : List Nat) : Option (Except DownloadError Unit × List Nat) :=
  match archive with
  | some fmt =>
      match chunks.archiveSlices with
      | none => none
      | some data =>
          match decompressFn fmt data with
          | Except.ok _ => some (Except.ok (), file)
          | Except.error e =>
              some (Except.error (DownloadError.ArchiveError e), file)
  | none => some (Except.ok (), chunks.saveBytes file)

/-- The verify-then-dispatch control flow of `Download::spawn`
(the `?` on `chunks.verify(checksum)` propagates the error before any
save step runs). -/
def Download.spawnModel (chunks : Chunks) (checksum : Option Checksum)
    (archive : Option ArchiveFormat)
    (decompressFn : ArchiveFormat → List (List Nat) → Except ArchiveError Unit)
    (file : List Nat) : Option (Except DownloadError Unit × List Nat) :=
  match checksum with
  | none => Download.saveStep chunks archive decompressFn file
  | some ck =>
      match Chunks.verify chunks ck with
      | none => none
      | some (Except.error e) => some (Except.error e, file)
      | some (Except.ok _) => Download.saveStep chunks archive decompressFn file

/-- The filename derivation in `Download::fill_output`
(src/downloader.rs lines 259-266):
`url.path_segments().and_then(last).and_then(nonempty).unwrap_or("download")`.
`segments` is `none` for cannot-be-a-base URLs. -/
def deriveFilename (segments : Option (List String)) : String :=
  ((segments.bind List.getLast?).bind
    (fun name => if name = "" then none else some name)).getD "download"

/-- `last non-empty path segment` — the filename rule exactly as the
spec words it (refinement reference for claim C8, deliberately written
from the spec, not from the source). -/
def lastNonEmptySegment (segments : List String) : Option String :=
  (segments.filter (fun s => s != "")).getLast?

/-- The codec extension table in `Download::fill_output`
(src/downloader.rs lines 276-282); every other variant yields "". -/
def ArchiveFormat.archiveExt : ArchiveFormat → String
  | ArchiveFormat.Bz2 => "bz2"
  | ArchiveFormat.Gz => "gz"
  | ArchiveFormat.Xz => "xz"
  | ArchiveFormat.Zst => "zst"
  | _ => ""

/-- The multi-entry formats rejected with a user filename in
`Download::fill_output` (src/downloader.rs lines 269-275). -/
def ArchiveFormat.isMultiEntry : ArchiveFormat → Bool
  | ArchiveFormat.Zip | ArchiveFormat.Tar | ArchiveFormat.TarBz2
  | ArchiveFormat.TarGz | ArchiveFormat.TarXz | ArchiveFormat.TarZst => true
  | _ => false

/-- The filename computation of `Download::fill_output`
(src/downloader.rs lines 257-291): pick the user filename or derive
one, reject multi-entry formats combined with a user filename, then
strip `ext.len() + 1` trailing characters whenever the name ends with
`archive_ext`.  Filenames are `List Char` (the source works on ASCII
byte strings).  `none` models the panic when
`filename.len() - archive_ext.len() - 1` underflows or slices out of
bounds.  File creation itself is external. -/
def fillOutputName (userFilename : Option String)
    (segments : Option (List String)) (fmt : Option ArchiveFormat) :
    Option (Except DownloadError (List Char)) :=
  let name := (userFilename.getD (deriveFilename segments)).toList
  match fmt with
  | none => some (Except.ok name)
  | some f =>
      if f.isMultiEntry && userFilename.isSome then
        some (Except.error DownloadError.UnsupportedFileName)
      else
        let ext := f.archiveExt.toList
        if ext.isSuffixOf name then
          if ext.length + 1 ≤ name.length then
            some (Except.ok (name.take (name.length - ext.length - 1)))
          else none
        else some (Except.ok name)

/-- The virtual reader over the chunk slices, from
src/downloader/decompress.rs (`struct SliceReader`).  `slices` holds
the not-yet-consumed remainder of each slice (reading from a `&[u8]`
advances the slice in place), `index` is the current slice index and
`inner_index` the cursor `seek` records. -/
structure SliceReader where
  slices : List (List Nat)
  index : Nat
  inner_index : Nat
deriving DecidableEq

/-- `SliceReader::new` from src/downloader/decompress.rs. -/
def SliceReader.new (slices : List (List Nat)) : SliceReader :=
  ⟨slices, 0, 0⟩

/-- The loop of `SliceReader::read` (src/downloader/decompress.rs lines
80-90): `slices[index].read(buf)` copies `min(n, slice.len())` bytes
from the front of the current slice and advances it; on a zero-byte
read the index moves to the next slice; past the last slice the read
returns no bytes.  Returns the bytes read, the updated slice list and
the updated index.  `fuel` bounds the loop structurally; with
`fuel = slices.length - index` it expires exactly when the while
condition `index < slices.length` turns false. -/
def readLoop (slices : List (List Nat)) (n : Nat) :
    Nat → Nat → List Nat × List (List Nat) × Nat
  | 0, index => ([], slices, index)
  | fuel + 1, index =>
      if h : index < slices.length then
        let s := slices.get ⟨index, h⟩
        if s.length = 0 ∨ n = 0 then readLoop slices n fuel (index + 1)
        else (s.take n, slices.set index (s.drop n), index)
      else ([], slices, index)

/-- `SliceReader::read` for a destination buffer of capacity `n`.
Note that `inner_index` is not consulted. -/
def SliceReader.read (r : SliceReader) (n : Nat) : List Nat × SliceReader :=
  let out := readLoop r.slices n (r.slices.length - r.index) r.index
  (out.1, { r with slices := out.2.1, index := out.2.2 })

/-- `std::io::SeekFrom`, the argument of `SliceReader::seek`. -/
inductive SeekFrom
  | Start : Nat → SeekFrom
  | End : Int → SeekFrom
  | Current : Int → SeekFrom
deriving DecidableEq

/-- The `offset as usize` cast of an i64 offset. -/
def usizeOfI64 (o : Int) : Nat := (o % (2 ^ 64 : Int)).toNat

/-- Total remaining length of the slices,
`self.slices.iter().map(len).sum()`. -/
def SliceReader.totalLen (r : SliceReader) : Nat :=
  (r.slices.map List.length).sum

/-- The scan loop of `SliceReader::seek` (src/downloader/decompress.rs
lines 104-111): find the slice containing byte `pos`; returns the slice
index and offset within it, or `none` past the end. -/
def seekScan : List (List Nat) → Nat → Nat → Nat → Option (Nat × Nat)
  | [], _, _, _ => none
  | s :: rest, pos, i, total =>
      if pos < total + s.length then some (i, pos - total)
      else seekScan rest pos (i + 1) (total + s.length)

/-- `SliceReader::seek` from src/downloader/decompress.rs lines 92-115.
The target position is computed with wrapping usize arithmetic, the
cursor fields are reset and the slice list scanned; failure (`none`,
the `InvalidInput` error) leaves the reset cursor in place. -/
def SliceReader.seek (r : SliceReader) (s : SeekFrom) :
    Option Nat × SliceReader :=
  let pos : Nat :=
    match s with
    | SeekFrom.Start o => o % u64Mod
    | SeekFrom.End o => (r.totalLen + u64Mod - usizeOfI64 o) % u64Mod
    | SeekFrom.Current o => (r.index + r.inner_index + usizeOfI64 o) % u64Mod
  match seekScan r.slices pos 0 0 with
  | some (i, inner) => (some pos, { r with index := i, inner_index := inner })
  | none => (none, { r with index := 0, inner_index := 0 })

/-- The URL interface the source consumes (the `url` crate is
external): `path_segments()` (none for cannot-be-a-base URLs) and
`host_str()`. -/
structure Url where
  path_segments : Option (List String)
  host_str : Option String
deriving DecidableEq

/-- The `Download` plan from src/downloader.rs (fields backed by
external handles — the output `File`, headers, progress bar, the
checksum hasher and archive format — are reduced to what the modelled
operations inspect; `output` keeps only presence). -/
structure Download where
  url : Url
  output : Option Unit
  directory : Option String
  filename : Option String
  preferred_threads : Option Nat
  content_length : Option Nat
deriving DecidableEq

/-- `Download::with_threads` from src/downloader.rs lines 248-251: the
builder stores the requested count without any validation. -/
def Download.with_threads (d : Download) (threads : Nat) : Download :=
  { d with preferred_threads := some threads }

/-- Helper: below the u64 overflow threshold, `Chunks::new` produces
exactly the ranges `[size*i, min(size*(i+1), length))` with
`size = (length + threads) / threads` and no wrap-around. -/
theorem chunksNew_eq (N L : Nat) (hN : 0 < N) (hov : L + N < u64Mod) :
    Chunks.new N L = some ⟨(List.range N).map (fun i =>
      { buf := [], begin := (L + N) / N * i,
        end_ := min ((L + N) / N * i + (L + N) / N) L, length := L })⟩ := by
  have hne : N ≠ 0 := hN.ne'
  have hmod : (L + N) % u64Mod = L + N := Nat.mod_eq_of_lt hov
  have hsN : (L + N) / N * N ≤ L + N := Nat.div_mul_le_self _ _
  unfold Chunks.new
  rw [if_neg hne]
  simp only [hmod]
  refine congrArg (fun l => some (Chunks.mk l)) ?_
  refine List.map_congr_left ?_
  intro i hi
  have hiN : i < N := List.mem_range.mp hi
  have h2 : (L + N) / N * i + (L + N) / N ≤ L + N := by
    have h1 : (L + N) / N * (i + 1) ≤ (L + N) / N * N :=
      Nat.mul_le_mul_left _ hiN
    calc (L + N) / N * i + (L + N) / N = (L + N) / N * (i + 1) := by ring
    _ ≤ (L + N) / N * N := h1
    _ ≤ L + N := hsN
  have h3 : (L + N) / N * i ≤ L + N := le_trans (Nat.le_add_right _ _) h2
  simp [Nat.mod_eq_of_lt (lt_of_le_of_lt h3 hov),
        Nat.mod_eq_of_lt (lt_of_le_of_lt h2 hov)]

/-- C1 (amended): for every length L > 0 and thread count N in [1, 255]
such that L + N does not overflow u64, the chunk partition produced by
`Chunks::new(N, L)` covers [0, L) exactly — the union of the half-open
ranges [begin, end) equals [0, L), the ranges are pairwise disjoint, and
the last chunk's end equals L.  (Without the no-overflow hypothesis the
claim fails: see the counterexample at L = 2^64 - 1.) -/
theorem chunks_new_partition (N L : Nat) (cs : Chunks)
    (hN : 1 ≤ N) (hN255 : N ≤ 255) (hL : 0 < L) (hov : L + N < u64Mod)
    (hnew : Chunks.new N L = some cs) :
    (∀ x, (∃ c ∈ cs.chunks, c.begin ≤ x ∧ x < c.end_) ↔ x < L) ∧
    cs.chunks.Pairwise (fun c d =>
      ∀ x, ¬(c.begin ≤ x ∧ x < c.end_ ∧ d.begin ≤ x ∧ x < d.end_)) ∧
    (cs.chunks.getLast?).map Chunk.end_ = some L := by
  rw [chunksNew_eq N L hN hov] at hnew
  set s := (L + N) / N with hs_def
  have hs : 0 < s := (Nat.one_le_div_iff hN).mpr (Nat.le_add_left N L)
  have hLsN : L < s * N := by
    have h1 := Nat.div_add_mod (L + N) N
    have h2 := Nat.mod_lt (L + N) hN
    rw [hs_def, Nat.mul_comm]
    omega
  obtain rfl := Option.some.inj hnew
  refine ⟨?_, ?_, ?_⟩
  · intro x
    constructor
    · rintro ⟨c, hmem, hbx, hxe⟩
      obtain ⟨i, hi, rfl⟩ := List.mem_map.mp hmem
      exact lt_of_lt_of_le hxe (min_le_right _ _)
    · intro hxL
      refine ⟨{ buf := [], begin := s * (x / s),
                end_ := min (s * (x / s) + s) L, length := L }, ?_, ?_, ?_⟩
      · refine List.mem_map.mpr ⟨x / s, List.mem_range.mpr ?_, rfl⟩
        by_contra hcon
        push_neg at hcon
        have h1 : s * N ≤ s * (x / s) := Nat.mul_le_mul_left _ hcon
        have h2 : s * (x / s) ≤ x := by
          rw [Nat.mul_comm]
          exact Nat.div_mul_le_self x s
        omega
      · rw [Nat.mul_comm]
        exact Nat.div_mul_le_self x s
      · refine lt_min ?_ hxL
        have h1 := Nat.div_add_mod x s
        have h2 := Nat.mod_lt x hs
        omega
  · rw [List.pairwise_map]
    refine (List.pairwise_lt_range N).imp ?_
    intro i j hij x hx
    dsimp only at hx
    obtain ⟨h1, h2, h3, h4⟩ := hx
    have h5 : x < s * i + s := lt_of_lt_of_le h2 (min_le_left _ _)
    have h6 : s * (i + 1) ≤ s * j := Nat.mul_le_mul_left _ hij
    have h7 : s * i + s = s * (i + 1) := by ring
    omega
  · obtain ⟨n, rfl⟩ : ∃ n, N = n + 1 := ⟨N - 1, by omega⟩
    rw [List.range_succ, List.map_append]
    simp only [List.map_cons, List.map_nil, List.getLast?_concat]
    have hle : L ≤ s * n + s := by
      have : s * n + s = s * (n + 1) := by ring
      omega
    simp [Option.map, min_eq_right hle]

/-- Witness for C1: the partition of a 5-byte resource into 2 chunks
is [0,3), [3,5); all hypotheses hold and the conclusion follows. -/
theorem chunks_new_partition_witness :
    (Chunks.new 2 5 = some ⟨[⟨[], 0, 3, 5⟩, ⟨[], 3, 5, 5⟩]⟩) ∧
    ((∀ x, (∃ c ∈ (⟨[⟨[], 0, 3, 5⟩, ⟨[], 3, 5, 5⟩]⟩ : Chunks).chunks,
        c.begin ≤ x ∧ x < c.end_) ↔ x < 5) ∧
      (⟨[⟨[], 0, 3, 5⟩, ⟨[], 3, 5, 5⟩]⟩ : Chunks).chunks.Pairwise (fun c d =>
        ∀ x, ¬(c.begin ≤ x ∧ x < c.end_ ∧ d.begin ≤ x ∧ x < d.end_)) ∧
      ((⟨[⟨[], 0, 3, 5⟩, ⟨[], 3, 5, 5⟩]⟩ : Chunks).chunks.getLast?).map
        Chunk.end_ = some 5) :=
  ⟨by decide, chunks_new_partition 2 5 _ (by decide) (by decide) (by decide)
    (by decide) (by decide)⟩

/-- C1 counterexample: at N = 2, L = 2^64 - 1 (a valid u64 length) the
wrapping add `length + threads` makes the chunk size 0, so every range
is empty and the last chunk's end is 0, not L — the partition does not
cover [0, L). -/
theorem chunks_new_partition_cex :
    Chunks.new 2 (2 ^ 64 - 1) =
      some ⟨[⟨[], 0, 0, 2 ^ 64 - 1⟩, ⟨[], 0, 0, 2 ^ 64 - 1⟩]⟩ ∧
    ((⟨[⟨[], 0, 0, 2 ^ 64 - 1⟩, ⟨[], 0, 0, 2 ^ 64 - 1⟩]⟩ : Chunks).chunks.getLast?).map
      Chunk.end_ = some 0 ∧
    (0 : Nat) ≠ 2 ^ 64 - 1 ∧ (0 : Nat) < 2 ^ 64 - 1 ∧
    1 ≤ 2 ∧ (2 : Nat) ≤ 255 := by decide

/-- C2 (amended): `Chunks::new(N, L)` partitions using chunk size
`(L + N) / N` — integer division, equal to `L / N + 1`, which is NOT
`ceil(L / N)` when N divides L — and emits the range
`[size * i, min(size * (i + 1), L))` for each i in [0, N), provided
`L + N` does not overflow u64.  For a 1000-byte resource fetched with
2 threads, the two ranged requests carry the Range header values
`bytes=0-501` and `bytes=501-`. -/
theorem chunks_new_size_headers :
    (∀ N L, 1 ≤ N → N ≤ 255 → 0 < L → L + N < u64Mod →
      Chunks.new N L = some ⟨(List.range N).map (fun i =>
        { buf := [], begin := (L + N) / N * i,
          end_ := min ((L + N) / N * i + (L + N) / N) L, length := L })⟩) ∧
    (∀ N L, 0 < N → (L + N) / N = L / N + 1) ∧
    (Chunks.new 2 1000).map Chunks.headers =
      some [some "bytes=0-501", some "bytes=501-"] := by
  refine ⟨fun N L h1 _ _ hov => chunksNew_eq N L h1 hov, ?_, by decide⟩
  intro N L hN
  rw [Nat.add_div_right _ hN]

/-- Witness for C2: the general form instantiated at N = 2, L = 1000
(size (1000 + 2) / 2 = 501). -/
theorem chunks_new_size_headers_witness :
    Chunks.new 2 1000 = some ⟨(List.range 2).map (fun i =>
      { buf := [], begin := (1000 + 2) / 2 * i,
        end_ := min ((1000 + 2) / 2 * i + (1000 + 2) / 2) 1000,
        length := 1000 })⟩ ∧
    (1000 + 2) / 2 = 1000 / 2 + 1 :=
  ⟨chunks_new_size_headers.1 2 1000 (by decide) (by decide) (by decide)
    (by decide),
   chunks_new_size_headers.2.1 2 1000 (by decide)⟩

/-- C2 counterexample: the claim's chunk size `ceil(1000 / 2) = 500`
and header values `bytes=0-500`, `bytes=500-` do not match the code,
which uses size (1000 + 2) / 2 = 501 and emits `bytes=0-501`,
`bytes=501-`. -/
theorem chunks_new_size_headers_cex :
    (Chunks.new 2 1000).map Chunks.headers =
      some [some "bytes=0-501", some "bytes=501-"] ∧
    (Chunks.new 2 1000).map Chunks.headers ≠
      some [some "bytes=0-500", some "bytes=500-"] ∧
    Chunks.new 2 1000 =
      some ⟨[⟨[], 0, 501, 1000⟩, ⟨[], 501, 1000, 1000⟩]⟩ ∧
    (1000 + 2) / 2 ≠ (1000 + 2 - 1) / 2 := by decide

/-- C4 (amended): below the overflow threshold, every chunk produced by
`Chunks::new(N, L)` satisfies `end ≤ length` (with `length = L`), and
`begin < end` holds exactly when `begin < length`: chunks whose `begin`
already reaches L (possible because size = L / N + 1 can overshoot,
e.g. N = 2, L = 1) are degenerate, with `end = length ≤ begin`. -/
theorem chunks_new_bounds (N L : Nat) (cs : Chunks)
    (hN : 1 ≤ N) (hN255 : N ≤ 255) (hL : 0 < L) (hov : L + N < u64Mod)
    (hnew : Chunks.new N L = some cs) :
    ∀ c ∈ cs.chunks, c.end_ ≤ c.length ∧ c.length = L ∧
      (c.begin < c.end_ ↔ c.begin < L) := by
  rw [chunksNew_eq N L hN hov] at hnew
  obtain rfl := Option.some.inj hnew
  intro c hmem
  obtain ⟨i, hi, rfl⟩ := List.mem_map.mp hmem
  have hs : 0 < (L + N) / N := (Nat.one_le_div_iff hN).mpr (Nat.le_add_left N L)
  dsimp only
  refine ⟨min_le_right _ _, rfl, ?_, ?_⟩
  · intro h
    exact lt_of_lt_of_le h (min_le_right _ _)
  · intro h
    exact lt_min (by omega) h

/-- Witness for C4: instantiated at N = 2, L = 5 on the concrete
partition [0,3), [3,5). -/
theorem chunks_new_bounds_witness :
    Chunks.new 2 5 = some ⟨[⟨[], 0, 3, 5⟩, ⟨[], 3, 5, 5⟩]⟩ ∧
    (∀ c ∈ (⟨[⟨[], 0, 3, 5⟩, ⟨[], 3, 5, 5⟩]⟩ : Chunks).chunks,
      c.end_ ≤ c.length ∧ c.length = 5 ∧ (c.begin < c.end_ ↔ c.begin < 5)) :=
  ⟨by decide, chunks_new_bounds 2 5 _ (by decide) (by decide) (by decide)
    (by decide) (by decide)⟩

/-- C4 counterexample: with N = 2 and L = 1 the second chunk is
`{begin := 1, end := 1}`, so `begin < end` fails although the claim
asserts it for every chunk, every L > 0 and every N in [1, 255]. -/
theorem chunks_new_bounds_cex :
    Chunks.new 2 1 = some ⟨[⟨[], 0, 1, 1⟩, ⟨[], 1, 1, 1⟩]⟩ ∧
    (⟨[], 1, 1, 1⟩ : Chunk) ∈
      (⟨[⟨[], 0, 1, 1⟩, ⟨[], 1, 1, 1⟩]⟩ : Chunks).chunks ∧
    ¬((⟨[], 1, 1, 1⟩ : Chunk).begin < (⟨[], 1, 1, 1⟩ : Chunk).end_) ∧
    (0 : Nat) < 1 ∧ 1 ≤ 2 ∧ (2 : Nat) ≤ 255 := by decide

/-- C7 (confirmed): `Chunk::download` emits exactly one of three Range
header forms — no header when begin = 0 and end = length, the string
`bytes={begin}-` when end = length and begin > 0, and the string
`bytes={begin}-{end}` for every other chunk. -/
theorem chunk_range_header_cases (c : Chunk) :
    (c.begin = 0 → c.end_ = c.length → c.rangeHeader = none) ∧
    (0 < c.begin → c.end_ = c.length →
      c.rangeHeader = some ("bytes=" ++ toString c.begin ++ "-")) ∧
    (c.end_ ≠ c.length →
      c.rangeHeader =
        some ("bytes=" ++ toString c.begin ++ "-" ++ toString c.end_)) := by
  unfold Chunk.rangeHeader
  refine ⟨fun h1 h2 => ?_, fun h1 h2 => ?_, fun h1 => ?_⟩
  · rw [if_pos ⟨h1, h2⟩]
  · rw [if_neg, if_pos h2]
    rintro ⟨h3, -⟩
    omega
  · rw [if_neg, if_neg h1]
    rintro ⟨-, h3⟩
    exact h1 h3

/-- Witness for C7: the three header forms at concrete chunks
[0,5)/5, [3,5)/5 and [1,2)/5. -/
theorem chunk_range_header_cases_witness :
    (⟨[], 0, 5, 5⟩ : Chunk).rangeHeader = none ∧
    ((0 : Nat) < 3 ∧ (⟨[], 3, 5, 5⟩ : Chunk).rangeHeader =
      some ("bytes=" ++ toString (3 : Nat) ++ "-")) ∧
    ((2 : Nat) ≠ 5 ∧ (⟨[], 1, 2, 5⟩ : Chunk).rangeHeader =
      some ("bytes=" ++ toString (1 : Nat) ++ "-" ++ toString (2 : Nat))) :=
  ⟨(chunk_range_header_cases ⟨[], 0, 5, 5⟩).1 rfl rfl,
   ⟨by decide, (chunk_range_header_cases ⟨[], 3, 5, 5⟩).2.1 (by decide) rfl⟩,
   ⟨by decide, (chunk_range_header_cases ⟨[], 1, 2, 5⟩).2.2 (by decide)⟩⟩

/-- C8 (amended): with no user filename, the derived output filename is
the URL's LAST path segment when that segment is non-empty, and the
literal "download" otherwise — including when earlier segments are
non-empty (a trailing slash yields "download", not the last non-empty
segment).  The claim's examples /a/b/c.bin ↦ "c.bin" and / ↦ "download"
hold. -/
theorem derive_filename_rule (segments : Option (List String)) :
    (segments = none → deriveFilename segments = "download") ∧
    (∀ l, segments = some l → l.getLast? = none →
      deriveFilename segments = "download") ∧
    (∀ l, segments = some l → l.getLast? = some "" →
      deriveFilename segments = "download") ∧
    (∀ l s, segments = some l → l.getLast? = some s → s ≠ "" →
      deriveFilename segments = s) ∧
    deriveFilename (some ["a", "b", "c.bin"]) = "c.bin" ∧
    deriveFilename (some [""]) = "download" := by
  refine ⟨?_, ?_, ?_, ?_, by decide, by decide⟩
  · rintro rfl
    rfl
  · rintro l rfl hlast
    simp [deriveFilename, hlast]
  · rintro l rfl hlast
    simp [deriveFilename, hlast]
  · rintro l s rfl hlast hs
    simp [deriveFilename, hlast, hs]

/-- Witness for C8: a trailing-slash segment list gives "download", a
normal last segment is returned as is. -/
theorem derive_filename_rule_witness :
    deriveFilename (some ["a", "b", ""]) = "download" ∧
    deriveFilename (some ["x", "y"]) = "y" :=
  ⟨(derive_filename_rule (some ["a", "b", ""])).2.2.1 ["a", "b", ""] rfl
     (by decide),
   (derive_filename_rule (some ["x", "y"])).2.2.2.1 ["x", "y"] "y" rfl
     (by decide) (by decide)⟩

/-- C8 counterexample: for the path /a/b/ (segments ["a", "b", ""]) the
code derives "download", while the claim's rule — the last NON-EMPTY
path segment — demands "b". -/
theorem derive_filename_cex :
    deriveFilename (some ["a", "b", ""]) = "download" ∧
    lastNonEmptySegment ["a", "b", ""] = some "b" ∧
    ("download" : String) ≠ "b" := by decide

/-- C6 (code bug): `SliceReader::seek` scans the slice list, records
the located position in `inner_index` and returns it, but
`SliceReader::read` never consults `inner_index`.  On the reader over
[[10, 20, 30]], seeking to absolute offset 1 succeeds and records
inner_index = 1, yet the next read returns byte 10 (the concatenation's
byte at offset 0) instead of byte 20 at offset 1.  Also, a seek to
offset 3 — the total length, not beyond it — fails (InvalidInput). -/
theorem slice_reader_seek_read_bug :
    ((SliceReader.new [[10, 20, 30]]).seek (SeekFrom.Start 1)).1 = some 1 ∧
    ((SliceReader.new [[10, 20, 30]]).seek (SeekFrom.Start 1)).2.inner_index
      = 1 ∧
    ((((SliceReader.new [[10, 20, 30]]).seek (SeekFrom.Start 1)).2.read 1).1
      = [10]) ∧
    [[10, 20, 30]].flatten.get? 1 = some 20 ∧
    ([10] : List Nat) ≠ [20] ∧
    (SliceReader.new [[10, 20, 30]]).totalLen = 3 ∧
    ((SliceReader.new [[10, 20, 30]]).seek (SeekFrom.Start 3)).1 = none := by
  decide

/-- Helper: a chunk's payload slice exists (no panic) exactly when the
buffer holds at least `end - begin` bytes, given `begin ≤ end`. -/
theorem payloadSlice_isSome (c : Chunk) (h : c.begin ≤ c.end_) :
    c.payloadSlice.isSome ↔ c.end_ - c.begin ≤ c.buf.length := by
  unfold Chunk.payloadSlice
  split
  next hc => simp [hc.2]
  next hc =>
    simp only [Option.isSome_none, Bool.false_eq_true, false_iff]
    intro hb
    exact hc ⟨h, hb⟩

/-- Helper: the hashing fold of `Chunks::verify` survives (no panic)
exactly when every chunk's payload slice exists. -/
theorem foldlM_payload_isSome (l : List Chunk) (ck : Checksum) :
    (l.foldlM (fun (acc : Checksum) (c : Chunk) =>
      c.payloadSlice.map acc.update) ck).isSome ↔
    ∀ c ∈ l, c.payloadSlice.isSome := by
  induction l generalizing ck with
  | nil => simp
  | cons c l ih =>
      rw [List.foldlM_cons]
      cases hp : c.payloadSlice with
      | none => simp [hp]
      | some p => simp [hp, ih]

/-- Helper: the slice list of `Chunks::save_archive` is built (no
panic) exactly when every chunk's payload slice exists. -/
theorem payloadSlices_isSome (l : List Chunk) :
    (payloadSlices l).isSome ↔
    ∀ c ∈ l, c.payloadSlice.isSome := by
  induction l with
  | nil => simp [payloadSlices]
  | cons c l ih =>
      unfold payloadSlices
      cases hp : c.payloadSlice with
      | none => simp [hp]
      | some p => simp [hp, ih]

/-- C10 (confirmed): `Chunks::verify` and `Chunks::save_archive` index
each chunk's buffer as `buf[0 .. end - begin]`; for chunks with
`begin ≤ end` they are panic-free exactly when every chunk's buffer
holds at least `end - begin` bytes, so a chunk whose transferred body
is shorter than its range panics (`none`, an out-of-bounds index)
instead of producing an error value. -/
theorem verify_archive_panic_iff (cs : Chunks) (ck : Checksum)
    (h : ∀ c ∈ cs.chunks, c.begin ≤ c.end_) :
    ((cs.verify ck).isSome ↔
      ∀ c ∈ cs.chunks, c.end_ - c.begin ≤ c.buf.length) ∧
    ((cs.archiveSlices).isSome ↔
      ∀ c ∈ cs.chunks, c.end_ - c.begin ≤ c.buf.length) := by
  have key : (∀ c ∈ cs.chunks, c.payloadSlice.isSome) ↔
      ∀ c ∈ cs.chunks, c.end_ - c.begin ≤ c.buf.length :=
    ⟨fun ha c hc => (payloadSlice_isSome c (h c hc)).mp (ha c hc),
     fun ha c hc => (payloadSlice_isSome c (h c hc)).mpr (ha c hc)⟩
  constructor
  · rw [Chunks.verify, Option.isSome_map', foldlM_payload_isSome]
    exact key
  · rw [Chunks.archiveSlices, payloadSlices_isSome]
    exact key

/-- Witness for C10: a single well-formed chunk ([7, 8] over [0, 2))
satisfies the hypothesis and both equivalences. -/
theorem verify_archive_panic_iff_witness :
    (∀ c ∈ (⟨[⟨[7, 8], 0, 2, 2⟩]⟩ : Chunks).chunks, c.begin ≤ c.end_) ∧
    ((((⟨[⟨[7, 8], 0, 2, 2⟩]⟩ : Chunks)).verify ⟨fun _ => "", [], ""⟩).isSome ↔
      ∀ c ∈ (⟨[⟨[7, 8], 0, 2, 2⟩]⟩ : Chunks).chunks,
        c.end_ - c.begin ≤ c.buf.length) ∧
    (((⟨[⟨[7, 8], 0, 2, 2⟩]⟩ : Chunks)).archiveSlices.isSome ↔
      ∀ c ∈ (⟨[⟨[7, 8], 0, 2, 2⟩]⟩ : Chunks).chunks,
        c.end_ - c.begin ≤ c.buf.length) :=
  ⟨by decide,
   (verify_archive_panic_iff ⟨[⟨[7, 8], 0, 2, 2⟩]⟩ ⟨fun _ => "", [], ""⟩
     (by decide)).1,
   (verify_archive_panic_iff ⟨[⟨[7, 8], 0, 2, 2⟩]⟩ ⟨fun _ => "", [], ""⟩
     (by decide)).2⟩

/-- Helper: the only error `Chunks::verify` can produce is
`InvalidChecksum`. -/
theorem verify_error_invalid_checksum (cs : Chunks) (ck : Checksum)
    (e : DownloadError) (h : cs.verify ck = some (Except.error e)) :
    e = DownloadError.InvalidChecksum := by
  unfold Chunks.verify at h
  cases hf : cs.chunks.foldlM (fun (acc : Checksum) (c : Chunk) =>
      c.payloadSlice.map acc.update) ck with
  | none => rw [hf] at h; simp at h
  | some final =>
      rw [hf] at h
      simp only [Option.map_some'] at h
      obtain heq := Option.some.inj h
      by_cases hb : final.verifyBool
      · rw [if_pos hb] at heq
        exact absurd heq (by simp)
      · rw [if_neg hb] at heq
        cases heq
        rfl

/-- Helper: the only error the filename computation of `fill_output`
can produce is `UnsupportedFileName`. -/
theorem fillOutputName_error (uf : Option String)
    (segs : Option (List String)) (fmt : Option ArchiveFormat)
    (e : DownloadError)
    (h : fillOutputName uf segs fmt = some (Except.error e)) :
    e = DownloadError.UnsupportedFileName := by
  unfold fillOutputName at h
  split at h
  · simp at h
  · split at h
    · obtain heq := Option.some.inj h
      cases heq
      rfl
    · dsimp only at h
      split at h
      · split at h
        · simp at h
        · simp at h
      · simp at h

/-- Helper: the only errors the dispatch tail of `spawn` can produce
are wrapped `ArchiveError`s. -/
theorem saveStep_error (chunks : Chunks) (fmt : Option ArchiveFormat)
    (dfn : ArchiveFormat → List (List Nat) → Except ArchiveError Unit)
    (file : List Nat) (e : DownloadError) (out : List Nat)
    (h : Download.saveStep chunks fmt dfn file =
      some (Except.error e, out)) :
    ∃ ae, e = DownloadError.ArchiveError ae := by
  unfold Download.saveStep at h
  split at h
  · split at h
    · simp at h
    · split at h
      · simp at h
      · simp only [Option.some.injEq, Prod.mk.injEq,
          Except.error.injEq] at h
        exact ⟨_, h.1.symm⟩
  · simp at h

/-- C9 (confirmed): the builder accepts `with_threads(0)` without any
validation or error; `Chunks::new(0, L)` then divides by zero and
panics for every L (`none`); and no modelled operation ever returns the
`InvalidThreads` error variant. -/
theorem with_threads_zero_panics :
    (∀ d : Download, (d.with_threads 0).preferred_threads = some 0) ∧
    (∀ L : Nat, Chunks.new 0 L = none) ∧
    (∀ (cs : Chunks) (ck : Checksum),
      cs.verify ck ≠ some (Except.error DownloadError.InvalidThreads)) ∧
    (∀ (uf : Option String) (segs : Option (List String))
      (fmt : Option ArchiveFormat),
      fillOutputName uf segs fmt ≠
        some (Except.error DownloadError.InvalidThreads)) ∧
    (∀ (chunks : Chunks) (cko : Option Checksum)
      (fmt : Option ArchiveFormat)
      (dfn : ArchiveFormat → List (List Nat) → Except ArchiveError Unit)
      (file out : List Nat),
      Download.spawnModel chunks cko fmt dfn file ≠
        some (Except.error DownloadError.InvalidThreads, out)) := by
  refine ⟨fun d => rfl, fun L => rfl, ?_, ?_, ?_⟩
  · intro cs ck h
    exact absurd (verify_error_invalid_checksum cs ck _ h) (by simp)
  · intro uf segs fmt h
    exact absurd (fillOutputName_error uf segs fmt _ h) (by simp)
  · intro chunks cko fmt dfn file out h
    have hstep : ∀ (hs : Download.saveStep chunks fmt dfn file =
        some (Except.error DownloadError.InvalidThreads, out)), False := by
      intro hs
      obtain ⟨ae, hae⟩ := saveStep_error chunks fmt dfn file _ out hs
      exact absurd hae (by simp)
    unfold Download.spawnModel at h
    split at h
    · exact hstep h
    · split at h
      · simp at h
      · simp only [Option.some.injEq, Prod.mk.injEq,
          Except.error.injEq] at h
        rename_i heq
        have h2 := verify_error_invalid_checksum chunks _ _ heq
        rw [h.1] at h2
        exact absurd h2 (by simp)
      · exact hstep h

/-- Witness for C9: the component statements at concrete inputs. -/
theorem with_threads_zero_panics_witness :
    ((Download.mk ⟨none, none⟩ none none none none none).with_threads 0).preferred_threads
      = some 0 ∧
    Chunks.new 0 7 = none ∧
    (⟨[⟨[7], 0, 1, 1⟩]⟩ : Chunks).verify ⟨fun _ => "", [], ""⟩ ≠
      some (Except.error DownloadError.InvalidThreads) ∧
    fillOutputName (some "x") (some ["x"]) (some ArchiveFormat.Zip) ≠
      some (Except.error DownloadError.InvalidThreads) :=
  ⟨with_threads_zero_panics.1 _, with_threads_zero_panics.2.1 7,
   with_threads_zero_panics.2.2.1 _ _,
   with_threads_zero_panics.2.2.2.1 _ _ _⟩

/-- Helper: the payload-concatenation fold starting from `init` equals
`init` followed by the fold from nil. -/
theorem foldl_payload_append (l : List Chunk) (init : List Nat) :
    l.foldl (fun a c => a ++ c.buf.take (c.end_ - c.begin)) init =
    init ++ l.foldl (fun a c => a ++ c.buf.take (c.end_ - c.begin)) [] := by
  induction l generalizing init with
  | nil => simp
  | cons c l ih =>
      rw [List.foldl_cons, List.foldl_cons, ih,
        ih (([] : List Nat) ++ c.buf.take (c.end_ - c.begin))]
      simp [List.append_assoc]

/-- Helper: when no chunk panics, the hashing fold of `Chunks::verify`
produces exactly the original hasher fed with the concatenated payload
bytes. -/
theorem foldlM_payload_eq (l : List Chunk) (ck : Checksum)
    (h : ∀ c ∈ l, c.begin ≤ c.end_ ∧ c.end_ - c.begin ≤ c.buf.length) :
    l.foldlM (fun (acc : Checksum) (c : Chunk) =>
      c.payloadSlice.map acc.update) ck =
    some ⟨ck.hashAlg,
      ck.acc ++ l.foldl (fun a c => a ++ c.buf.take (c.end_ - c.begin)) [],
      ck.contents⟩ := by
  induction l generalizing ck with
  | nil => simp
  | cons c l ih =>
      have hc := h c (List.mem_cons_self c l)
      have hps : c.payloadSlice = some (c.buf.take (c.end_ - c.begin)) := by
        unfold Chunk.payloadSlice
        rw [if_pos hc]
      rw [List.foldlM_cons, hps]
      simp only [Option.map_some', Option.bind_eq_bind, Option.some_bind']
      rw [ih (ck.update (c.buf.take (c.end_ - c.begin)))
        (fun c' hc' => h c' (List.mem_cons_of_mem _ hc'))]
      rw [List.foldl_cons,
        foldl_payload_append l (([] : List Nat) ++ c.buf.take (c.end_ - c.begin))]
      simp [Checksum.update, List.append_assoc]

/-- C3 (amended): when the configured checksum does not match the
downloaded bytes, `spawn` (and hence `start_downloads`) resolves to the
`InvalidChecksum` error — but the destination file's contents are NOT
the downloaded bytes: verification runs before any save step, so the
error propagates first and the file keeps exactly the contents it had
when `fill_output` created it (empty). -/
theorem spawn_checksum_mismatch (chunks : Chunks) (ck : Checksum)
    (archive : Option ArchiveFormat)
    (dfn : ArchiveFormat → List (List Nat) → Except ArchiveError Unit)
    (file : List Nat)
    (hwf : ∀ c ∈ chunks.chunks,
      c.begin ≤ c.end_ ∧ c.end_ - c.begin ≤ c.buf.length)
    (hbad : (ck.update chunks.payloadBytes).verifyBool = false) :
    Download.spawnModel chunks (some ck) archive dfn file =
      some (Except.error DownloadError.InvalidChecksum, file) := by
  have hv : Chunks.verify chunks ck =
      some (Except.error DownloadError.InvalidChecksum) := by
    unfold Chunks.verify
    rw [foldlM_payload_eq chunks.chunks ck hwf]
    simp only [Option.map_some', Option.some.injEq]
    rw [if_neg]
    simp only [Checksum.update, Chunks.payloadBytes] at hbad
    simp [hbad]
  simp only [Download.spawnModel, hv]

/-- Witness for C3: one fully transferred chunk [1, 2, 3] with an
expected digest ("bb") differing from the computed one ("aa"):
spawn returns InvalidChecksum and leaves the created file empty. -/
theorem spawn_checksum_mismatch_witness :
    (∀ c ∈ (⟨[⟨[1, 2, 3], 0, 3, 3⟩]⟩ : Chunks).chunks,
      c.begin ≤ c.end_ ∧ c.end_ - c.begin ≤ c.buf.length) ∧
    ((⟨fun _ => "aa", [], "bb"⟩ : Checksum).update
      (⟨[⟨[1, 2, 3], 0, 3, 3⟩]⟩ : Chunks).payloadBytes).verifyBool = false ∧
    Download.spawnModel ⟨[⟨[1, 2, 3], 0, 3, 3⟩]⟩
      (some ⟨fun _ => "aa", [], "bb"⟩) none (fun _ _ => Except.ok ()) [] =
      some (Except.error DownloadError.InvalidChecksum, []) :=
  ⟨by decide, by decide,
   spawn_checksum_mismatch ⟨[⟨[1, 2, 3], 0, 3, 3⟩]⟩ ⟨fun _ => "aa", [], "bb"⟩
     none (fun _ _ => Except.ok ()) [] (by decide) (by decide)⟩

/-- C3 counterexample: with downloaded bytes [1, 2, 3] and a
mismatching checksum, spawn yields InvalidChecksum but the file on disk
still holds its created contents [] — not the downloaded (unverified)
bytes [1, 2, 3] the claim asserts. -/
theorem spawn_checksum_mismatch_cex :
    Download.spawnModel ⟨[⟨[1, 2, 3], 0, 3, 3⟩]⟩
      (some ⟨fun _ => "aa", [], "bb"⟩) none (fun _ _ => Except.ok ()) [] =
      some (Except.error DownloadError.InvalidChecksum, []) ∧
    (⟨[⟨[1, 2, 3], 0, 3, 3⟩]⟩ : Chunks).payloadBytes = [1, 2, 3] ∧
    ([] : List Nat) ≠ [1, 2, 3] := by
  exact ⟨by decide, by decide, by decide⟩

/-- Helper: the filename computation of `fill_output` for a derived
filename (no user filename) under an archive format, as a single
conditional on the extension-suffix test. -/
theorem fillOutputName_derived (segments : Option (List String))
    (f : ArchiveFormat) :
    fillOutputName none segments (some f) =
      (if f.archiveExt.toList.isSuffixOf (deriveFilename segments).toList then
        if f.archiveExt.toList.length + 1 ≤
            (deriveFilename segments).toList.length then
          some (Except.ok ((deriveFilename segments).toList.take
            ((deriveFilename segments).toList.length -
              f.archiveExt.toList.length - 1)))
        else none
      else some (Except.ok (deriveFilename segments).toList)) := by
  unfold fillOutputName
  simp

/-- C5 (amended): in `fill_output` with a derived filename, the
stripping condition is `ends_with(ext)` WITHOUT a leading dot: whenever
the derived name ends with the codec's extension, the trailing
`ext.len() + 1` characters are removed — `foo.txt.gz` becomes `foo.txt`
as the claim intends, but `foogz` becomes `fo` as well; a matching name
shorter than `ext.len() + 1` panics on index underflow; and since the
non-codec variants map to the empty extension, which every name ends
with, they always strip the final character instead of leaving the
name unchanged. -/
theorem fill_output_ext_strip (segments : Option (List String))
    (f : ArchiveFormat) :
    ((¬f.archiveExt.toList <:+ (deriveFilename segments).toList →
      fillOutputName none segments (some f) =
        some (Except.ok (deriveFilename segments).toList)) ∧
     (f.archiveExt.toList <:+ (deriveFilename segments).toList →
      f.archiveExt.toList.length + 1 ≤
        (deriveFilename segments).toList.length →
      fillOutputName none segments (some f) =
        some (Except.ok ((deriveFilename segments).toList.take
          ((deriveFilename segments).toList.length -
            f.archiveExt.toList.length - 1)))) ∧
     (f.archiveExt.toList <:+ (deriveFilename segments).toList →
      (deriveFilename segments).toList.length <
        f.archiveExt.toList.length + 1 →
      fillOutputName none segments (some f) = none) ∧
     ('.' :: f.archiveExt.toList <:+ (deriveFilename segments).toList →
      fillOutputName none segments (some f) =
        some (Except.ok ((deriveFilename segments).toList.take
          ((deriveFilename segments).toList.length -
            (f.archiveExt.toList.length + 1)))))) ∧
    fillOutputName none (some ["foo.txt.gz"]) (some ArchiveFormat.Gz) =
      some (Except.ok "foo.txt".toList) := by
  refine ⟨⟨?_, ?_, ?_, ?_⟩, by decide⟩
  · intro h
    rw [fillOutputName_derived, if_neg (by simpa using h)]
  · intro h1 h2
    rw [fillOutputName_derived, if_pos (by simpa using h1), if_pos h2]
  · intro h1 h2
    rw [fillOutputName_derived, if_pos (by simpa using h1),
      if_neg (by omega)]
  · intro h
    have h1 : f.archiveExt.toList <:+ (deriveFilename segments).toList :=
      List.IsSuffix.trans (List.suffix_cons '.' f.archiveExt.toList) h
    have h2 : f.archiveExt.toList.length + 1 ≤
        (deriveFilename segments).toList.length := by
      simpa using h.length_le
    rw [fillOutputName_derived, if_pos (by simpa using h1), if_pos h2,
      Nat.sub_sub]

/-- Witness for C5: a non-matching name is unchanged; a `.gz` name is
stripped by three characters. -/
theorem fill_output_ext_strip_witness :
    (¬"gz".toList <:+ "foo".toList ∧
      fillOutputName none (some ["foo"]) (some ArchiveFormat.Gz) =
        some (Except.ok "foo".toList)) ∧
    ('.' :: "gz".toList <:+ "foo.txt.gz".toList ∧
      fillOutputName none (some ["foo.txt.gz"]) (some ArchiveFormat.Gz) =
        some (Except.ok ("foo.txt.gz".toList.take
          ("foo.txt.gz".toList.length - ("gz".toList.length + 1))))) :=
  ⟨⟨by decide, (fill_output_ext_strip (some ["foo"]) ArchiveFormat.Gz).1.1
      (by decide)⟩,
   ⟨by decide,
    (fill_output_ext_strip (some ["foo.txt.gz"]) ArchiveFormat.Gz).1.2.2.2
      (by decide)⟩⟩

/-- C5 counterexample: `foogz` does not end in `.gz`, yet Gz stripping
turns it into `fo`; and under the Tar variant (not a single-file
codec), `foo.tar` is truncated to `foo.ta` rather than left
unchanged — both contradicting the claim. -/
theorem fill_output_ext_strip_cex :
    fillOutputName none (some ["foogz"]) (some ArchiveFormat.Gz) =
      some (Except.ok "fo".toList) ∧
    fillOutputName none (some ["foogz"]) (some ArchiveFormat.Gz) ≠
      some (Except.ok "foogz".toList) ∧
    fillOutputName none (some ["foo.tar"]) (some ArchiveFormat.Tar) =
      some (Except.ok "foo.ta".toList) ∧
    fillOutputName none (some ["foo.tar"]) (some ArchiveFormat.Tar) ≠
      some (Except.ok "foo.tar".toList) := by
  refine ⟨by decide, by decide, by decide, by decide⟩
